import Mathlib

/-!
# Verification of the monitoring module of Contextual-Document-Router

Shallow embedding of `src/monitoring.py` (classes `ApplicationMetrics` and
`HealthChecker`).  Python floats are modelled as exact rationals `ℚ`,
Python dicts keyed by strings as association lists, `collections.deque`
with `maxlen` as a list with FIFO eviction on append, and probe callables
by their outcome (a returned value or a raised exception message).
-/

namespace DocRouter

/-- State of `ApplicationMetrics` (src/monitoring.py, lines 69-98).
`request_times` is the rolling window, oldest first.
`start_time` is real time and not modelled; no claim depends on it. -/
structure ApplicationMetrics where
  max_history : Nat
  request_times : List ℚ
  error_count : Nat
  success_count : Nat
  total_requests : Nat
  requests_by_format : List (String × Nat)
  requests_by_intent : List (String × Nat)
deriving DecidableEq

/-- `ApplicationMetrics.__init__`: fresh recorder with window capacity
`max_history` (the Python default is 1000). -/
def ApplicationMetrics.init (max_history : Nat) : ApplicationMetrics :=
  { max_history := max_history
    request_times := []
    error_count := 0
    success_count := 0
    total_requests := 0
    requests_by_format := []
    requests_by_intent := [] }

/-- `deque.append` on a deque with `maxlen`: when the deque is full the
oldest element (leftmost) is discarded. -/
def dequeAppend (maxlen : Nat) (xs : List ℚ) (x : ℚ) : List ℚ :=
  let ys := xs ++ [x]
  if maxlen < ys.length then ys.drop (ys.length - maxlen) else ys

/-- `dict.get(k, 0) + 1` store-back on an association list. -/
def dictIncr (d : List (String × Nat)) (k : String) : List (String × Nat) :=
  match d with
  | [] => [(k, 1)]
  | (k2, v) :: rest => if k2 = k then (k2, v + 1) :: rest else (k2, v) :: dictIncr rest k

/-- `ApplicationMetrics.record_request` (lines 83-98).  `format` and
`intent` default to `None` in Python; `if format:` is truthiness, so an
empty string is also skipped. -/
def ApplicationMetrics.record_request (m : ApplicationMetrics) (duration : ℚ)
    (format : Option String) (intent : Option String) (success : Bool) :
    ApplicationMetrics :=
  { m with
    request_times := dequeAppend m.max_history m.request_times duration
    total_requests := m.total_requests + 1
    success_count := if success then m.success_count + 1 else m.success_count
    error_count := if success then m.error_count else m.error_count + 1
    requests_by_format :=
      match format with
      | some f => if f = "" then m.requests_by_format else dictIncr m.requests_by_format f
      | none => m.requests_by_format
    requests_by_intent :=
      match intent with
      | some i => if i = "" then m.requests_by_intent else dictIncr m.requests_by_intent i
      | none => m.requests_by_intent }

/-- `ApplicationMetrics.reset` (lines 155-164): clears the window, the
counters and both dimension tallies (capacity is kept). -/
def ApplicationMetrics.reset (m : ApplicationMetrics) : ApplicationMetrics :=
  { m with
    request_times := []
    error_count := 0
    success_count := 0
    total_requests := 0
    requests_by_format := []
    requests_by_intent := [] }

/-- One call to `record_request`, packaged so sequences of calls are lists. -/
structure Request where
  duration : ℚ
  format : Option String
  intent : Option String
  success : Bool
deriving DecidableEq

/-- Apply a sequence of `record_request` calls in order. -/
def applyRequests (m : ApplicationMetrics) (rs : List Request) : ApplicationMetrics :=
  rs.foldl (fun acc r => acc.record_request r.duration r.format r.intent r.success) m

/-- The counter invariant of the spec. -/
def counterInv (m : ApplicationMetrics) : Prop :=
  m.success_count + m.error_count = m.total_requests

theorem counterInv_record (m : ApplicationMetrics) (d : ℚ) (f i : Option String)
    (s : Bool) (h : counterInv m) : counterInv (m.record_request d f i s) := by
  unfold counterInv ApplicationMetrics.record_request at *
  cases s <;> simp <;> omega

theorem counterInv_applyRequests (m : ApplicationMetrics) (rs : List Request)
    (h : counterInv m) : counterInv (applyRequests m rs) := by
  induction rs generalizing m with
  | nil => exact h
  | cons r rest ih =>
    exact ih _ (counterInv_record m r.duration r.format r.intent r.success h)

theorem counterInv_init (maxh : Nat) : counterInv (ApplicationMetrics.init maxh) := by
  simp [counterInv, ApplicationMetrics.init]

theorem counterInv_reset (m : ApplicationMetrics) : counterInv m.reset := by
  simp [counterInv, ApplicationMetrics.reset]

/-- C1: for every sequence of `record_request` calls (any mix of success
flags, formats and intents) starting from a fresh or freshly reset
`ApplicationMetrics`, after each call
`success_count + error_count = total_requests`.  Quantifying over all
sequences covers the state after every individual call. -/
theorem C1_counter_invariant (maxh : Nat) (m0 : ApplicationMetrics)
    (h : m0 = ApplicationMetrics.init maxh ∨ ∃ m : ApplicationMetrics, m0 = m.reset)
    (rs : List Request) :
    (applyRequests m0 rs).success_count + (applyRequests m0 rs).error_count
      = (applyRequests m0 rs).total_requests := by
  have hinv : counterInv m0 := by
    rcases h with h | ⟨m, h⟩
    · rw [h]; exact counterInv_init maxh
    · rw [h]; exact counterInv_reset m
  exact counterInv_applyRequests m0 rs hinv

/-- Witness for C1 at a concrete input: capacity 5, one success with a
format tag followed by one failure with an intent tag. -/
theorem C1_counter_invariant_witness :
    (applyRequests (ApplicationMetrics.init 5)
        [⟨1, some "Email", none, true⟩, ⟨2, none, some "RFQ", false⟩]).success_count
      + (applyRequests (ApplicationMetrics.init 5)
        [⟨1, some "Email", none, true⟩, ⟨2, none, some "RFQ", false⟩]).error_count
      = (applyRequests (ApplicationMetrics.init 5)
        [⟨1, some "Email", none, true⟩, ⟨2, none, some "RFQ", false⟩]).total_requests :=
  C1_counter_invariant 5 _ (Or.inl rfl)
    [⟨1, some "Email", none, true⟩, ⟨2, none, some "RFQ", false⟩]

/-- `ApplicationMetrics.get_average_response_time` (lines 100-104):
0 on an empty window, otherwise the mean of the window. -/
def ApplicationMetrics.get_average_response_time (m : ApplicationMetrics) : ℚ :=
  if m.request_times = [] then 0
  else m.request_times.sum / (m.request_times.length : ℚ)

/-! ### Binary64 model

`get_percentile`, `get_error_rate` and `get_success_rate` do their
arithmetic on Python floats (IEEE-754 binary64).  That rounding is
observable — `int(50 * (58/100))` is 28, not 29, and the two rates do not
sum to exactly 100 — so those three methods are embedded through an exact
model of binary64: every operation result is the true rational result
rounded to 53 significant bits, round-to-nearest ties-to-even.  The model
carries an unbounded exponent: overflow and subnormals cannot occur for
the quantities these methods compute at any realizable input size, and
the `int → float` conversions involved are exact below `2^53`.  All
functions are written over `Int`/`Nat` arithmetic and `Rat.divInt`, so
concrete inputs evaluate inside the kernel. -/

/-- Fuel-driven binary logarithm: `log2fuel fuel n` is `⌊log₂ n⌋` for
`1 ≤ n ≤ fuel`. -/
def log2fuel : Nat → Nat → Nat
  | 0, _ => 0
  | fuel + 1, n => if n ≤ 1 then 0 else log2fuel fuel (n / 2) + 1

/-- `⌊log₂ n⌋` for `n ≥ 1`. -/
def log2n (n : Nat) : Nat := log2fuel n n

/-- Numerator of the fractional part of `v` over the denominator `v.den`. -/
def fracNum (v : ℚ) : ℤ := v.num - ⌊v⌋ * v.den

/-- Round to nearest integer, ties to even (the IEEE-754 default
rounding), computed from the numerator and denominator. -/
def roundNEQ (v : ℚ) : ℤ :=
  if 2 * fracNum v < v.den then ⌊v⌋
  else if (v.den : ℤ) < 2 * fracNum v then ⌊v⌋ + 1
  else if ⌊v⌋ % 2 = 0 then ⌊v⌋ else ⌊v⌋ + 1

/-- Binary exponent of the positive fraction `a / b`: the unique `e` with
`2^e ≤ a/b < 2^(e+1)`, computed by scaling `a` up so the shifted quotient
has an exact integer log. -/
def eFrac (a b : Nat) : Int :=
  (log2n (a * 2 ^ (53 + log2n b) / b) : Int) - 53 - (log2n b : Int)

/-- The binary64 value of the quotient `a / b`: the exact quotient rounded
to 53 significant bits, nearest-even (IEEE division and conversion are
correctly rounded).  0 when `a = 0` (exact) or `b = 0` (never reached:
every call site guards the denominator). -/
def flFrac (a b : Nat) : ℚ :=
  if a = 0 ∨ b = 0 then 0
  else
    Rat.divInt
      (roundNEQ (Rat.divInt (a * 2 ^ (52 - eFrac a b).toNat)
          (b * 2 ^ (-(52 - eFrac a b)).toNat))
        * 2 ^ (-(52 - eFrac a b)).toNat)
      (2 ^ (52 - eFrac a b).toNat)

/-- The index `get_percentile` computes:
`int(len(sorted_times) * (percentile / 100))` evaluated in binary64 —
`percentile / 100` is one rounded division, the product with the length is
one rounded multiplication, and `int` truncates (floor, as both factors
are nonnegative). -/
def floatIndex (n p : Nat) : Nat :=
  (⌊flFrac (n * (flFrac p 100).num.toNat) (flFrac p 100).den⌋).toNat

/-- `ApplicationMetrics.get_percentile` (lines 106-112): 0 on an empty
window; otherwise sort a copy of the window ascending and select
`sorted[min(index, len - 1)]` where `index = int(len * (percentile/100))`
is computed in binary64 (`floatIndex`). -/
def ApplicationMetrics.get_percentile (m : ApplicationMetrics) (percentile : Nat) : ℚ :=
  if m.request_times = [] then 0
  else
    let sorted_times := m.request_times.mergeSort
    let index := floatIndex sorted_times.length percentile
    sorted_times.getD (min index (sorted_times.length - 1)) 0

/-- `ApplicationMetrics.get_error_rate` (lines 114-118):
`(error_count / total_requests) * 100` in binary64 — one rounded division
(`flFrac`), then one rounded multiplication by 100 (the product of the
dyadic quotient `q = num/den` with 100 is the exact fraction
`(q.num * 100) / q.den`, rounded). -/
def ApplicationMetrics.get_error_rate (m : ApplicationMetrics) : ℚ :=
  if m.total_requests = 0 then 0
  else flFrac ((flFrac m.error_count m.total_requests).num.toNat * 100)
    (flFrac m.error_count m.total_requests).den

/-- `ApplicationMetrics.get_success_rate` (lines 120-124): same binary64
pipeline on `success_count`. -/
def ApplicationMetrics.get_success_rate (m : ApplicationMetrics) : ℚ :=
  if m.total_requests = 0 then 0
  else flFrac ((flFrac m.success_count m.total_requests).num.toNat * 100)
    (flFrac m.success_count m.total_requests).den

theorem log2fuel_spec : ∀ (fuel n : Nat), n ≤ fuel → 1 ≤ n →
    2 ^ log2fuel fuel n ≤ n ∧ n < 2 ^ (log2fuel fuel n + 1) := by
  intro fuel
  induction fuel with
  | zero => intro n h h1; omega
  | succ fuel ih =>
    intro n h h1
    by_cases hn : n ≤ 1
    · have hone : n = 1 := by omega
      subst hone
      simp [log2fuel]
    · simp only [log2fuel, if_neg hn]
      have h2 : n / 2 ≤ fuel := by omega
      have h3 : 1 ≤ n / 2 := by omega
      obtain ⟨l, u⟩ := ih (n / 2) h2 h3
      have hp1 : (2:Nat) ^ (log2fuel fuel (n / 2) + 1) = 2 ^ (log2fuel fuel (n / 2)) * 2 :=
        pow_succ 2 _
      have hp2 : (2:Nat) ^ (log2fuel fuel (n / 2) + 1 + 1)
          = 2 ^ (log2fuel fuel (n / 2) + 1) * 2 := pow_succ 2 _
      omega

theorem log2n_spec (n : Nat) (h : 1 ≤ n) :
    2 ^ log2n n ≤ n ∧ n < 2 ^ (log2n n + 1) :=
  log2fuel_spec n n le_rfl h

theorem floor_le_roundNEQ (v : ℚ) : ⌊v⌋ ≤ roundNEQ v := by
  unfold roundNEQ
  split_ifs <;> omega

theorem roundNEQ_le_floor_add_one (v : ℚ) : roundNEQ v ≤ ⌊v⌋ + 1 := by
  unfold roundNEQ
  split_ifs <;> omega

theorem num_eq_mul_den (v : ℚ) : (v.num : ℚ) = v * (v.den : ℚ) := by
  have hden : ((v.den : ℚ)) ≠ 0 := by
    exact_mod_cast v.den_nz
  exact ((eq_div_iff hden).mp (Rat.num_div_den v).symm).symm

theorem fract_eq_fracNum_div (v : ℚ) :
    Int.fract v = ((fracNum v : ℤ) : ℚ) / ((v.den : ℕ) : ℚ) := by
  have hden : ((v.den : ℕ) : ℚ) ≠ 0 := by exact_mod_cast v.den_nz
  rw [Int.fract, eq_div_iff hden]
  unfold fracNum
  push_cast
  rw [num_eq_mul_den v]
  ring

theorem fracNum_cmp (x y : ℚ) (h : Int.fract x ≤ Int.fract y) :
    fracNum x * y.den ≤ fracNum y * x.den := by
  have hdx : (0 : ℚ) < (x.den : ℕ) := by exact_mod_cast x.pos
  have hdy : (0 : ℚ) < (y.den : ℕ) := by exact_mod_cast y.pos
  rw [fract_eq_fracNum_div, fract_eq_fracNum_div, div_le_div_iff hdx hdy] at h
  exact_mod_cast h

theorem roundNEQ_mono {x y : ℚ} (h : x ≤ y) : roundNEQ x ≤ roundNEQ y := by
  rcases lt_or_eq_of_le (Int.floor_le_floor h : ⌊x⌋ ≤ ⌊y⌋) with hf | hf
  · calc roundNEQ x ≤ ⌊x⌋ + 1 := roundNEQ_le_floor_add_one x
      _ ≤ ⌊y⌋ := by omega
      _ ≤ roundNEQ y := floor_le_roundNEQ y
  · have hfr : Int.fract x ≤ Int.fract y := by
      unfold Int.fract
      rw [hf]
      linarith
    have hcmp := fracNum_cmp x y hfr
    have hdx : (0 : ℤ) < (x.den : ℤ) := by exact_mod_cast x.pos
    have hdy : (0 : ℤ) < (y.den : ℤ) := by exact_mod_cast y.pos
    unfold roundNEQ
    rw [hf]
    split_ifs <;>
      first
      | omega
      | (exfalso; nlinarith)

theorem eFrac_spec (a b : Nat) (ha : 1 ≤ a) (hb : 1 ≤ b) :
    (2:ℚ) ^ (eFrac a b) ≤ (a : ℚ) / (b : ℚ)
      ∧ (a : ℚ) / (b : ℚ) < 2 ^ (eFrac a b + 1) := by
  obtain ⟨lb1, lb2⟩ := log2n_spec b hb
  have hA : b ≤ a * 2 ^ (53 + log2n b) :=
    le_of_lt
      (calc b < 2 ^ (log2n b + 1) := lb2
        _ ≤ 2 ^ (53 + log2n b) := Nat.pow_le_pow_right (by norm_num) (by omega)
        _ ≤ a * 2 ^ (53 + log2n b) := Nat.le_mul_of_pos_left _ ha)
  have hq1 : 1 ≤ a * 2 ^ (53 + log2n b) / b := (Nat.one_le_div_iff (by omega)).mpr hA
  obtain ⟨n1, n2⟩ := log2n_spec _ hq1
  have hnat1 : 2 ^ log2n (a * 2 ^ (53 + log2n b) / b) * b ≤ a * 2 ^ (53 + log2n b) :=
    (Nat.le_div_iff_mul_le (by omega)).mp n1
  have hnat2 : a * 2 ^ (53 + log2n b)
      < 2 ^ (log2n (a * 2 ^ (53 + log2n b) / b) + 1) * b := by
    have hmod := Nat.div_add_mod (a * 2 ^ (53 + log2n b)) b
    have hmlt := Nat.mod_lt (a * 2 ^ (53 + log2n b)) (show 0 < b by omega)
    calc a * 2 ^ (53 + log2n b)
        = b * (a * 2 ^ (53 + log2n b) / b) + a * 2 ^ (53 + log2n b) % b := hmod.symm
      _ < b * (a * 2 ^ (53 + log2n b) / b) + b := by omega
      _ = b * (a * 2 ^ (53 + log2n b) / b + 1) := by ring
      _ ≤ b * 2 ^ (log2n (a * 2 ^ (53 + log2n b) / b) + 1) := Nat.mul_le_mul_left b n2
      _ = 2 ^ (log2n (a * 2 ^ (53 + log2n b) / b) + 1) * b := Nat.mul_comm _ _
  have hbQ : (0:ℚ) < (b : ℚ) := by exact_mod_cast (show 0 < b by omega)
  have hpQ : (0:ℚ) < (2:ℚ) ^ (53 + log2n b) := by positivity
  have hef : (2:ℚ) ^ (eFrac a b)
      = (2:ℚ) ^ log2n (a * 2 ^ (53 + log2n b) / b) / (2:ℚ) ^ (53 + log2n b) := by
    rw [show eFrac a b
        = ((log2n (a * 2 ^ (53 + log2n b) / b) : ℕ) : ℤ) - ((53 + log2n b : ℕ) : ℤ) from by
      unfold eFrac; push_cast; ring]
    rw [zpow_sub₀ (two_ne_zero), zpow_natCast, zpow_natCast]
  have hef1 : (2:ℚ) ^ (eFrac a b + 1)
      = (2:ℚ) ^ (log2n (a * 2 ^ (53 + log2n b) / b) + 1) / (2:ℚ) ^ (53 + log2n b) := by
    rw [show eFrac a b + 1
        = ((log2n (a * 2 ^ (53 + log2n b) / b) + 1 : ℕ) : ℤ)
          - ((53 + log2n b : ℕ) : ℤ) from by
      unfold eFrac; push_cast; ring]
    rw [zpow_sub₀ (two_ne_zero), zpow_natCast, zpow_natCast]
  constructor
  · rw [hef, div_le_div_iff hpQ hbQ]
    exact_mod_cast hnat1
  · rw [hef1, div_lt_div_iff hbQ hpQ]
    exact_mod_cast hnat2

theorem zpow_toNat_split (s : Int) :
    (2:ℚ) ^ s = (2:ℚ) ^ s.toNat / (2:ℚ) ^ (-s).toNat := by
  rcases le_or_lt 0 s with hs | hs
  · have h1 : (-s).toNat = 0 := by omega
    rw [h1, pow_zero, div_one, ← zpow_natCast, Int.toNat_of_nonneg hs]
  · have h1 : s.toNat = 0 := by omega
    rw [h1, pow_zero, ← zpow_natCast, Int.toNat_of_nonneg (by omega : 0 ≤ -s)]
    rw [one_div, ← zpow_neg, neg_neg]

theorem flFrac_eq (a b : Nat) (ha : 1 ≤ a) (hb : 1 ≤ b) :
    flFrac a b
      = ((roundNEQ ((a : ℚ) / (b : ℚ) * (2:ℚ) ^ ((52:ℤ) - eFrac a b)) : ℤ) : ℚ)
        * (2:ℚ) ^ (eFrac a b - (52:ℤ)) := by
  unfold flFrac
  rw [if_neg (by omega)]
  have harg : Rat.divInt ((a : ℤ) * 2 ^ (52 - eFrac a b).toNat)
        ((b : ℤ) * 2 ^ (-(52 - eFrac a b)).toNat)
      = (a : ℚ) / (b : ℚ) * (2:ℚ) ^ ((52:ℤ) - eFrac a b) := by
    rw [Rat.divInt_eq_div, zpow_toNat_split (52 - eFrac a b)]
    push_cast
    rw [div_mul_div_comm]
  rw [harg, Rat.divInt_eq_div]
  rw [show eFrac a b - (52:ℤ) = -(52 - eFrac a b) from by ring]
  rw [zpow_toNat_split (-(52 - eFrac a b)), neg_neg]
  push_cast
  ring

theorem roundNEQ_nonneg (v : ℚ) (h : 0 ≤ v) : 0 ≤ roundNEQ v := by
  have h1 := floor_le_roundNEQ v
  have h2 : (0:ℤ) ≤ ⌊v⌋ := Int.floor_nonneg.mpr h
  omega

theorem flFrac_nonneg (a b : Nat) : 0 ≤ flFrac a b := by
  unfold flFrac
  split_ifs with h
  · exact le_rfl
  · apply Rat.divInt_nonneg
    · apply mul_nonneg
      · apply roundNEQ_nonneg
        apply Rat.divInt_nonneg <;> positivity
      · positivity
    · positivity

theorem flFrac_zero (b : Nat) : flFrac 0 b = 0 := by
  unfold flFrac
  simp

theorem flFrac_mono (a1 b1 a2 b2 : Nat) (hb1 : 1 ≤ b1) (hb2 : 1 ≤ b2)
    (h : (a1 : ℚ) / (b1 : ℚ) ≤ (a2 : ℚ) / (b2 : ℚ)) :
    flFrac a1 b1 ≤ flFrac a2 b2 := by
  rcases Nat.eq_zero_or_pos a1 with rfl | ha1
  · rw [flFrac_zero]
    exact flFrac_nonneg a2 b2
  · have hb1Q : (0:ℚ) < (b1 : ℚ) := by exact_mod_cast hb1
    have hb2Q : (0:ℚ) < (b2 : ℚ) := by exact_mod_cast hb2
    have ha1Q : (0:ℚ) < (a1 : ℚ) := by exact_mod_cast ha1
    have ha2 : 1 ≤ a2 := by
      by_contra h0
      have ha2z : a2 = 0 := by omega
      subst ha2z
      have : (0:ℚ) < (a1 : ℚ) / (b1 : ℚ) := by positivity
      simp at h
      linarith
    rw [flFrac_eq a1 b1 ha1 hb1, flFrac_eq a2 b2 ha2 hb2]
    obtain ⟨l1, u1⟩ := eFrac_spec a1 b1 ha1 hb1
    obtain ⟨l2, u2⟩ := eFrac_spec a2 b2 ha2 hb2
    have he : eFrac a1 b1 ≤ eFrac a2 b2 := by
      have hlt : (2:ℚ) ^ (eFrac a1 b1) < 2 ^ (eFrac a2 b2 + 1) :=
        lt_of_le_of_lt (le_trans l1 h) u2
      have := (zpow_lt_zpow_iff_right₀ (by norm_num : (1:ℚ) < 2)).mp hlt
      omega
    rcases eq_or_lt_of_le he with heq | hlt
    · rw [← heq]
      have harg : (a1:ℚ) / b1 * (2:ℚ) ^ ((52:ℤ) - eFrac a1 b1)
          ≤ (a2:ℚ) / b2 * (2:ℚ) ^ ((52:ℤ) - eFrac a1 b1) :=
        mul_le_mul_of_nonneg_right h (zpow_nonneg (by norm_num) _)
      have hr := roundNEQ_mono harg
      exact mul_le_mul_of_nonneg_right (by exact_mod_cast hr) (zpow_nonneg (by norm_num) _)
    · have hz1 : (a1:ℚ) / b1 * (2:ℚ) ^ ((52:ℤ) - eFrac a1 b1) < (2:ℚ) ^ (53:ℤ) := by
        calc (a1:ℚ) / b1 * (2:ℚ) ^ ((52:ℤ) - eFrac a1 b1)
            < (2:ℚ) ^ (eFrac a1 b1 + 1) * (2:ℚ) ^ ((52:ℤ) - eFrac a1 b1) :=
              mul_lt_mul_of_pos_right u1 (zpow_pos (by norm_num) _)
          _ = (2:ℚ) ^ (53:ℤ) := by
              rw [← zpow_add₀ (by norm_num : (2:ℚ) ≠ 0)]
              congr 1
              omega
      have hz2 : (2:ℚ) ^ (52:ℤ) ≤ (a2:ℚ) / b2 * (2:ℚ) ^ ((52:ℤ) - eFrac a2 b2) := by
        calc (2:ℚ) ^ (52:ℤ)
            = (2:ℚ) ^ (eFrac a2 b2) * (2:ℚ) ^ ((52:ℤ) - eFrac a2 b2) := by
              rw [← zpow_add₀ (by norm_num : (2:ℚ) ≠ 0)]
              congr 1
              omega
          _ ≤ (a2:ℚ) / b2 * (2:ℚ) ^ ((52:ℤ) - eFrac a2 b2) :=
              mul_le_mul_of_nonneg_right l2 (zpow_nonneg (by norm_num) _)
      have hm1 : roundNEQ ((a1:ℚ) / b1 * (2:ℚ) ^ ((52:ℤ) - eFrac a1 b1)) ≤ 2 ^ 53 := by
        have hf : ⌊(a1:ℚ) / b1 * (2:ℚ) ^ ((52:ℤ) - eFrac a1 b1)⌋ < 2 ^ 53 := by
          rw [Int.floor_lt]
          calc (a1:ℚ) / b1 * (2:ℚ) ^ ((52:ℤ) - eFrac a1 b1) < (2:ℚ) ^ (53:ℤ) := hz1
            _ = ((2 ^ 53 : ℤ) : ℚ) := by norm_num
        have := roundNEQ_le_floor_add_one ((a1:ℚ) / b1 * (2:ℚ) ^ ((52:ℤ) - eFrac a1 b1))
        omega
      have hm2 : (2 ^ 52 : ℤ) ≤ roundNEQ ((a2:ℚ) / b2 * (2:ℚ) ^ ((52:ℤ) - eFrac a2 b2)) := by
        have hf : (2 ^ 52 : ℤ) ≤ ⌊(a2:ℚ) / b2 * (2:ℚ) ^ ((52:ℤ) - eFrac a2 b2)⌋ := by
          rw [Int.le_floor]
          calc ((2 ^ 52 : ℤ) : ℚ) = (2:ℚ) ^ (52:ℤ) := by norm_num
            _ ≤ (a2:ℚ) / b2 * (2:ℚ) ^ ((52:ℤ) - eFrac a2 b2) := hz2
        have := floor_le_roundNEQ ((a2:ℚ) / b2 * (2:ℚ) ^ ((52:ℤ) - eFrac a2 b2))
        omega
      calc ((roundNEQ ((a1:ℚ) / b1 * (2:ℚ) ^ ((52:ℤ) - eFrac a1 b1)) : ℤ) : ℚ)
            * (2:ℚ) ^ (eFrac a1 b1 - (52:ℤ))
          ≤ ((2 ^ 53 : ℤ) : ℚ) * (2:ℚ) ^ (eFrac a1 b1 - (52:ℤ)) :=
            mul_le_mul_of_nonneg_right (by exact_mod_cast hm1) (zpow_nonneg (by norm_num) _)
        _ = (2:ℚ) ^ (eFrac a1 b1 + 1) := by
            rw [show ((2 ^ 53 : ℤ) : ℚ) = (2:ℚ) ^ (53:ℤ) from by norm_num,
              ← zpow_add₀ (by norm_num : (2:ℚ) ≠ 0)]
            congr 1
            omega
        _ ≤ (2:ℚ) ^ (eFrac a2 b2) := by
            apply zpow_le_zpow_right₀ (by norm_num : (1:ℚ) ≤ 2)
            omega
        _ = ((2 ^ 52 : ℤ) : ℚ) * (2:ℚ) ^ (eFrac a2 b2 - (52:ℤ)) := by
            rw [show ((2 ^ 52 : ℤ) : ℚ) = (2:ℚ) ^ (52:ℤ) from by norm_num,
              ← zpow_add₀ (by norm_num : (2:ℚ) ≠ 0)]
            congr 1
            omega
        _ ≤ ((roundNEQ ((a2:ℚ) / b2 * (2:ℚ) ^ ((52:ℤ) - eFrac a2 b2)) : ℤ) : ℚ)
            * (2:ℚ) ^ (eFrac a2 b2 - (52:ℤ)) :=
            mul_le_mul_of_nonneg_right (by exact_mod_cast hm2) (zpow_nonneg (by norm_num) _)

theorem mul_fl_cast (n : Nat) (v : ℚ) (hv : 0 ≤ v) :
    ((n * v.num.toNat : ℕ) : ℚ) / ((v.den : ℕ) : ℚ) = (n : ℚ) * v := by
  have hnum : (0:ℤ) ≤ v.num := Rat.num_nonneg.mpr hv
  have hcast : ((v.num.toNat : ℕ) : ℚ) = ((v.num : ℤ) : ℚ) := by
    exact_mod_cast Int.toNat_of_nonneg hnum
  push_cast
  rw [hcast, mul_div_assoc, Rat.num_div_den]

theorem floatIndex_mono (n p1 p2 : Nat) (hp : p1 ≤ p2) :
    floatIndex n p1 ≤ floatIndex n p2 := by
  have hv : flFrac p1 100 ≤ flFrac p2 100 := by
    apply flFrac_mono p1 100 p2 100 (by norm_num) (by norm_num)
    apply div_le_div_of_nonneg_right ?_ (by norm_num)
    exact_mod_cast hp
  have hv1 : (0:ℚ) ≤ flFrac p1 100 := flFrac_nonneg _ _
  have hv2 : (0:ℚ) ≤ flFrac p2 100 := flFrac_nonneg _ _
  have harg : ((n * (flFrac p1 100).num.toNat : ℕ) : ℚ) / (((flFrac p1 100).den : ℕ) : ℚ)
      ≤ ((n * (flFrac p2 100).num.toNat : ℕ) : ℚ) / (((flFrac p2 100).den : ℕ) : ℚ) := by
    rw [mul_fl_cast n _ hv1, mul_fl_cast n _ hv2]
    exact mul_le_mul_of_nonneg_left hv (by positivity)
  have hfl := flFrac_mono _ _ _ _ ((flFrac p1 100).pos) ((flFrac p2 100).pos) harg
  exact Int.toNat_le_toNat (Int.floor_le_floor hfl)

theorem dequeAppend_eq_drop (N : Nat) (xs : List ℚ) (x : ℚ) :
    dequeAppend N xs x = (xs ++ [x]).drop (xs.length + 1 - N) := by
  unfold dequeAppend
  simp only [List.length_append, List.length_singleton]
  split
  · rfl
  · next h =>
    have h0 : xs.length + 1 - N = 0 := by omega
    rw [h0, List.drop_zero]

theorem foldl_dequeAppend (N : Nat) (ds : List ℚ) :
    ∀ xs : List ℚ, xs.length ≤ N →
      List.foldl (dequeAppend N) xs ds = (xs ++ ds).drop (xs.length + ds.length - N) := by
  induction ds with
  | nil =>
    intro xs h
    simp only [List.foldl_nil, List.append_nil, List.length_nil, Nat.add_zero]
    have h0 : xs.length - N = 0 := by omega
    rw [h0, List.drop_zero]
  | cons d ds ih =>
    intro xs h
    rw [List.foldl_cons, dequeAppend_eq_drop]
    have hlen : ((xs ++ [d]).drop (xs.length + 1 - N)).length ≤ N := by
      simp only [List.length_drop, List.length_append, List.length_singleton]
      omega
    rw [ih _ hlen]
    have hk : xs.length + 1 - N ≤ (xs ++ [d]).length := by
      simp only [List.length_append, List.length_singleton]; omega
    rw [← List.drop_append_of_le_length hk, List.drop_drop]
    have harith :
        xs.length + 1 - N
            + (((xs ++ [d]).drop (xs.length + 1 - N)).length + ds.length - N)
          = xs.length + (d :: ds).length - N := by
      simp only [List.length_drop, List.length_append, List.length_singleton,
        List.length_cons, List.length_nil]
      omega
    rw [harith, List.append_assoc, List.singleton_append]

theorem record_request_window (m : ApplicationMetrics) (d : ℚ) (f i : Option String)
    (s : Bool) :
    (m.record_request d f i s).request_times = dequeAppend m.max_history m.request_times d
      ∧ (m.record_request d f i s).max_history = m.max_history := by
  constructor <;> rfl

theorem applyRequests_window (rs : List Request) :
    ∀ m : ApplicationMetrics,
      (applyRequests m rs).request_times
          = List.foldl (dequeAppend m.max_history) m.request_times (rs.map Request.duration)
        ∧ (applyRequests m rs).max_history = m.max_history := by
  induction rs with
  | nil => intro m; exact ⟨rfl, rfl⟩
  | cons r rs ih =>
    intro m
    have hr := ih (m.record_request r.duration r.format r.intent r.success)
    unfold applyRequests at *
    simp only [List.foldl_cons, List.map_cons]
    exact hr

/-- C2: with window capacity `N`, after more than `N` recorded durations the
window holds exactly the last `N` of them in call order (`List.drop` of all
but the last `N`); in particular capacity 5 with durations `[1,…,7]` leaves
the window `[3,4,5,6,7]` with average response time 5. -/
theorem C2_window_fifo (N : Nat) (ds : List ℚ) (h : N < ds.length) :
    (applyRequests (ApplicationMetrics.init N)
          (ds.map fun d => ⟨d, none, none, true⟩)).request_times
        = ds.drop (ds.length - N)
      ∧ (applyRequests (ApplicationMetrics.init 5)
          (([1, 2, 3, 4, 5, 6, 7] : List ℚ).map fun d => ⟨d, none, none, true⟩)).request_times
        = [3, 4, 5, 6, 7]
      ∧ (applyRequests (ApplicationMetrics.init 5)
          (([1, 2, 3, 4, 5, 6, 7] : List ℚ).map
            fun d => ⟨d, none, none, true⟩)).get_average_response_time
        = 5 := by
  have hwin : (applyRequests (ApplicationMetrics.init 5)
      (([1, 2, 3, 4, 5, 6, 7] : List ℚ).map
        fun d => (⟨d, none, none, true⟩ : Request))).request_times = [3, 4, 5, 6, 7] := by
    decide
  refine ⟨?_, hwin, ?_⟩
  · have hw := applyRequests_window (ds.map fun d => (⟨d, none, none, true⟩ : Request))
      (ApplicationMetrics.init N)
    rw [hw.1]
    have hmap : (ds.map fun d => (⟨d, none, none, true⟩ : Request)).map Request.duration
        = ds := by
      rw [List.map_map]
      exact List.map_id ds
    rw [hmap]
    have hfold := foldl_dequeAppend N ds [] (by simp)
    simp only [List.nil_append, List.length_nil, Nat.zero_add] at hfold
    exact hfold
  · unfold ApplicationMetrics.get_average_response_time
    rw [hwin, if_neg (by simp)]
    norm_num [List.sum_cons, List.sum_nil]

/-- Witness for C2 at capacity 5 and durations `[1,…,7]`. -/
theorem C2_window_fifo_witness :
    ((applyRequests (ApplicationMetrics.init 5)
          (([1, 2, 3, 4, 5, 6, 7] : List ℚ).map fun d => ⟨d, none, none, true⟩)).request_times
        = ([1, 2, 3, 4, 5, 6, 7] : List ℚ).drop (([1, 2, 3, 4, 5, 6, 7] : List ℚ).length - 5)
      ∧ (applyRequests (ApplicationMetrics.init 5)
          (([1, 2, 3, 4, 5, 6, 7] : List ℚ).map fun d => ⟨d, none, none, true⟩)).request_times
        = [3, 4, 5, 6, 7]
      ∧ (applyRequests (ApplicationMetrics.init 5)
          (([1, 2, 3, 4, 5, 6, 7] : List ℚ).map
            fun d => ⟨d, none, none, true⟩)).get_average_response_time
        = 5) :=
  C2_window_fifo 5 [1, 2, 3, 4, 5, 6, 7] (by decide)

/-- The code's `sorted(...)` on rationals: `mergeSort` with the default
order agrees with `insertionSort`, which evaluates by `decide`. -/
theorem mergeSort_rat_eq (l : List ℚ) :
    l.mergeSort = List.insertionSort (fun a b => a ≤ b) l :=
  List.eq_of_perm_of_sorted
    ((List.mergeSort_perm l _).trans (List.perm_insertionSort _ l).symm)
    (List.sorted_mergeSort' l)
    (List.sorted_insertionSort _ l)

/-- The claim's idealized reading of `percentile(p)`: copy the window,
sort it ascending, select index `floor(n * p/100)` computed exactly,
clamped to `[0, n-1]`; return 0 when the window is empty.  The code's
index differs from this at the inputs where binary64 rounding pulls
`n * (p/100)` below an integer (see the counterexample). -/
def percentile_spec (window : List ℚ) (p : Nat) : ℚ :=
  if window = [] then 0
  else
    let sorted := List.insertionSort (fun a b => a ≤ b) window
    let idx := min (max (window.length * p / 100) 0) (window.length - 1)
    sorted.getD idx 0

/-- The amended wording for `percentile(p)`: copy the window, sort it
ascending, select index `int(n * (p/100))` computed in binary64
(`floatIndex`), clamped to `[0, n-1]`; return 0 when the window is empty.
The live window is untouched (in this pure embedding every access sorts a
copy; `get_percentile` takes the state read-only and returns only the
selected value). -/
def percentile_spec_float (window : List ℚ) (p : Nat) : ℚ :=
  if window = [] then 0
  else
    let sorted := List.insertionSort (fun a b => a ≤ b) window
    let idx := min (max (floatIndex window.length p) 0) (window.length - 1)
    sorted.getD idx 0

set_option maxRecDepth 8000 in
/-- C3 counterexample: on the 50-element window `[1, …, 50]` with
percentile 58, the code computes `int(50 * (58/100)) = 28` in binary64
(`50 * 0.58` evaluates to `28.999999999999996`), so `get_percentile`
returns the element at index 28 — not the element at
`floor(50 * 58/100) = 29` that the claim's exact-index description
selects. -/
theorem C3_percentile_floor_counterexample :
    ({ ApplicationMetrics.init 1000 with
        request_times := (List.range 50).map (fun i => ((i + 1 : ℕ) : ℚ)) }
      : ApplicationMetrics).get_percentile 58
      ≠ percentile_spec ((List.range 50).map (fun i => ((i + 1 : ℕ) : ℚ))) 58 := by
  simp only [ApplicationMetrics.get_percentile, percentile_spec, mergeSort_rat_eq]
  decide

set_option maxRecDepth 8000 in
/-- C3 (amended): `get_percentile` computes exactly the sorted-copy
clamped-index selection with the index `int(n * (p/100))` evaluated in
binary64 (0 on an empty window, never mutating the window), and on the
window `[10,20,30,40,50]` the 50th percentile is 30. -/
theorem C3_percentile_refines_float_spec (m : ApplicationMetrics) (p : Nat) :
    m.get_percentile p = percentile_spec_float m.request_times p
      ∧ ({ ApplicationMetrics.init 1000 with
            request_times := [10, 20, 30, 40, 50] } : ApplicationMetrics).get_percentile 50
        = 30 := by
  constructor
  · by_cases hnil : m.request_times = []
    · simp [ApplicationMetrics.get_percentile, percentile_spec_float, hnil]
    · simp only [ApplicationMetrics.get_percentile, percentile_spec_float, if_neg hnil,
        mergeSort_rat_eq]
      rw [(List.perm_insertionSort _ m.request_times).length_eq]
      rw [Nat.max_eq_left (Nat.zero_le _)]
  · simp only [ApplicationMetrics.get_percentile, mergeSort_rat_eq]
    decide

/-- C4: on a fixed window, `get_percentile` is monotone in the percentile:
`p1 < p2` (both within `[0,100]`) implies
`get_percentile p1 ≤ get_percentile p2`. -/
theorem C4_percentile_monotone (m : ApplicationMetrics) (p1 p2 : Nat)
    (h1 : p1 < p2) (h2 : p2 ≤ 100) :
    m.get_percentile p1 ≤ m.get_percentile p2 := by
  by_cases hnil : m.request_times = []
  · simp [ApplicationMetrics.get_percentile, hnil]
  · simp only [ApplicationMetrics.get_percentile, if_neg hnil]
    have hsorted : m.request_times.mergeSort.Sorted (· ≤ ·) :=
      List.sorted_mergeSort' m.request_times
    have hlen : m.request_times.mergeSort.length = m.request_times.length :=
      (List.mergeSort_perm m.request_times _).length_eq
    have hpos : 0 < m.request_times.mergeSort.length := by
      rw [hlen]
      exact List.length_pos.mpr hnil
    have hi1 : min (floatIndex m.request_times.mergeSort.length p1)
        (m.request_times.mergeSort.length - 1) < m.request_times.mergeSort.length := by
      omega
    have hi2 : min (floatIndex m.request_times.mergeSort.length p2)
        (m.request_times.mergeSort.length - 1) < m.request_times.mergeSort.length := by
      omega
    have hile : min (floatIndex m.request_times.mergeSort.length p1)
          (m.request_times.mergeSort.length - 1)
        ≤ min (floatIndex m.request_times.mergeSort.length p2)
          (m.request_times.mergeSort.length - 1) := by
      have hdiv : floatIndex m.request_times.mergeSort.length p1
          ≤ floatIndex m.request_times.mergeSort.length p2 :=
        floatIndex_mono _ p1 p2 (le_of_lt h1)
      omega
    rw [List.getD_eq_get _ _ hi1, List.getD_eq_get _ _ hi2]
    exact hsorted.rel_get_of_le hile

/-- Witness for C4: on the window `[10,20,30,40,50]`, the 50th percentile
(30) is at most the 90th percentile (50). -/
theorem C4_percentile_monotone_witness :
    ({ ApplicationMetrics.init 1000 with
        request_times := [10, 20, 30, 40, 50] } : ApplicationMetrics).get_percentile 50
      ≤ ({ ApplicationMetrics.init 1000 with
        request_times := [10, 20, 30, 40, 50] } : ApplicationMetrics).get_percentile 90 :=
  C4_percentile_monotone _ 50 90 (by decide) (by decide)

set_option maxRecDepth 8000 in
/-- C5 (code bug): the spec promises
`get_error_rate() + get_success_rate() == 100` whenever
`total_requests > 0`, but the code computes both rates in binary64.  At
`total_requests = 3`, `error_count = 1` — reached here by recording two
successes and one failure on a fresh recorder — the rounded rates are
`2345624805922133/2^46` (`33.33333333333333…`) and `2345624805922133/2^45`
(`66.66666666666666…`), whose sum is `14073748835532798/2^47`, not 100
(Python prints `99.99999999999999`). -/
theorem C5_rates_sum_float_bug :
    0 < (applyRequests (ApplicationMetrics.init 5)
        [⟨1, none, none, true⟩, ⟨1, none, none, true⟩,
          ⟨1, none, none, false⟩]).total_requests
      ∧ (applyRequests (ApplicationMetrics.init 5)
          [⟨1, none, none, true⟩, ⟨1, none, none, true⟩,
            ⟨1, none, none, false⟩]).get_error_rate
        + (applyRequests (ApplicationMetrics.init 5)
          [⟨1, none, none, true⟩, ⟨1, none, none, true⟩,
            ⟨1, none, none, false⟩]).get_success_rate ≠ 100 := by
  refine ⟨by decide, ?_⟩
  have h1 : (applyRequests (ApplicationMetrics.init 5)
      [⟨1, none, none, true⟩, ⟨1, none, none, true⟩,
        ⟨1, none, none, false⟩]).get_error_rate
      = Rat.divInt 2345624805922133 (2 ^ 46) := by decide
  have h2 : (applyRequests (ApplicationMetrics.init 5)
      [⟨1, none, none, true⟩, ⟨1, none, none, true⟩,
        ⟨1, none, none, false⟩]).get_success_rate
      = Rat.divInt 2345624805922133 (2 ^ 45) := by decide
  rw [h1, h2, Rat.divInt_eq_div, Rat.divInt_eq_div]
  norm_num

/-- The status strings of the health checker. -/
inductive Status where
  | healthy
  | degraded
  | unhealthy
  | error
deriving DecidableEq

/-- A threshold dict: the two keys `_evaluate_status` reads, each possibly
absent.  The empty dict (Python falsy, "no bounds") is both `none`. -/
structure Threshold where
  warning : Option ℚ
  max : Option ℚ
deriving DecidableEq

/-- A probe's returned value: a plain number, or a dict modelled by its
optional `percent` entry — the only field `_evaluate_status` reads. -/
inductive ProbeValue where
  | scalar : ℚ → ProbeValue
  | composite : Option ℚ → ProbeValue
deriving DecidableEq

/-- `HealthChecker._evaluate_status` (lines 219-233): healthy on an empty
threshold; a dict value is replaced by `value.get('percent', 0)`; then
`value > max` gives unhealthy, else `value > warning` gives degraded,
else healthy (each bound checked only when present). -/
def evaluate_status (value : ProbeValue) (threshold : Threshold) : Status :=
  if threshold.warning = none ∧ threshold.max = none then .healthy
  else
    let v : ℚ :=
      match value with
      | .scalar q => q
      | .composite o => o.getD 0
    match threshold.max with
    | some mx =>
        if mx < v then .unhealthy
        else
          match threshold.warning with
          | some w => if w < v then .degraded else .healthy
          | none => .healthy
    | none =>
        match threshold.warning with
        | some w => if w < v then .degraded else .healthy
        | none => .healthy

/-- A registered check: its name, the outcome of calling its function
(`Except.error` models a raised exception via its message), and its
threshold. -/
structure Check where
  name : String
  outcome : Except String ProbeValue
  threshold : Threshold

/-- One entry of `results['checks']`: the status plus either the probe's
value or the caught exception's message. -/
structure CheckResult where
  name : String
  status : Status
  value : Option ProbeValue
  errMsg : Option String
deriving DecidableEq

/-- The loop of `HealthChecker.run_checks` (lines 192-216) with the mutable
`results['checks']` and `results['overall_status']` threaded through;
`timestamp` is real time and not modelled. -/
def run_checks_loop (results : List CheckResult) (overall : Status) :
    List Check → List CheckResult × Status
  | [] => (results, overall)
  | c :: rest =>
    match c.outcome with
    | .ok v =>
      let status := evaluate_status v c.threshold
      let overall2 :=
        if status = .unhealthy then Status.unhealthy
        else if status = .degraded ∧ overall ≠ .unhealthy then .degraded
        else overall
      run_checks_loop (results ++ [⟨c.name, status, some v, none⟩]) overall2 rest
    | .error e =>
      run_checks_loop (results ++ [⟨c.name, .error, none, some e⟩]) .unhealthy rest

/-- `HealthChecker.run_checks` (lines 183-217): per-check results in
registration order plus the overall status, which starts `healthy`.  It is
a total function: an exception raised by a probe is consumed inside the
loop and never propagated. -/
def run_checks (checks : List Check) : List CheckResult × Status :=
  run_checks_loop [] .healthy checks

/-- `HealthChecker.get_health_status` (lines 235-238). -/
def get_health_status (checks : List Check) : Status :=
  (run_checks checks).2

/-- Severity: `error` and `unhealthy` are equally severe, above `degraded`,
above `healthy`. -/
def sev : Status → Nat
  | .healthy => 0
  | .degraded => 1
  | .unhealthy => 2
  | .error => 2

/-- The overall status carrying a given severity. -/
def statusOfSev (n : Nat) : Status :=
  if 2 ≤ n then .unhealthy else if n = 1 then .degraded else .healthy

/-- The result entry `run_checks` stores for one check. -/
def resultOf (c : Check) : CheckResult :=
  match c.outcome with
  | .ok v => ⟨c.name, evaluate_status v c.threshold, some v, none⟩
  | .error e => ⟨c.name, .error, none, some e⟩

/-- Severity fold over the statuses a list of checks produces. -/
def foldSev (k : Nat) (cs : List Check) : Nat :=
  cs.foldl (fun n c => max n (sev (resultOf c).status)) k

/-- Maximum severity among recorded results. -/
def maxSev (rs : List CheckResult) : Nat :=
  rs.foldl (fun n r => max n (sev r.status)) 0

theorem evaluate_status_ne_error (v : ProbeValue) (t : Threshold) :
    evaluate_status v t ≠ .error := by
  rcases v with q | o <;> rcases t with ⟨_ | w, _ | mx⟩ <;>
    simp only [evaluate_status] <;> split_ifs <;> simp_all

theorem statusOfSev_ne_error (n : Nat) : statusOfSev n ≠ .error := by
  unfold statusOfSev
  split_ifs <;> simp

theorem statusOfSev_sev (o : Status) (ho : o ≠ .error) : statusOfSev (sev o) = o := by
  cases o <;> first | rfl | exact absurd rfl ho

theorem sev_le_two (s : Status) : sev s ≤ 2 := by
  cases s <;> simp [sev]

theorem sev_statusOfSev (n : Nat) (h : n ≤ 2) : sev (statusOfSev n) = n := by
  unfold statusOfSev
  split_ifs <;> simp [sev] <;> omega

theorem step_overall_eq (o s : Status) (ho : o ≠ .error) (hs : s ≠ .error) :
    (if s = .unhealthy then Status.unhealthy
        else if s = .degraded ∧ o ≠ .unhealthy then .degraded else o)
      = statusOfSev (max (sev o) (sev s)) := by
  cases o <;> cases s <;>
    first
    | exact absurd rfl ho
    | exact absurd rfl hs
    | decide

theorem run_checks_loop_fst (cs : List Check) :
    ∀ (rs : List CheckResult) (o : Status),
      (run_checks_loop rs o cs).1 = rs ++ cs.map resultOf := by
  induction cs with
  | nil => intro rs o; simp [run_checks_loop]
  | cons c cs ih =>
    intro rs o
    cases hc : c.outcome with
    | ok v => simp [run_checks_loop, hc, ih, resultOf, List.append_assoc]
    | error e => simp [run_checks_loop, hc, ih, resultOf, List.append_assoc]

theorem run_checks_loop_snd (cs : List Check) :
    ∀ (rs : List CheckResult) (o : Status), o ≠ .error →
      (run_checks_loop rs o cs).2 = statusOfSev (foldSev (sev o) cs) := by
  induction cs with
  | nil =>
    intro rs o ho
    simp [run_checks_loop, foldSev, statusOfSev_sev o ho]
  | cons c cs ih =>
    intro rs o ho
    cases hc : c.outcome with
    | ok v =>
      have hs := evaluate_status_ne_error v c.threshold
      have hstep := step_overall_eq o (evaluate_status v c.threshold) ho hs
      have hmax : max (sev o) (sev (evaluate_status v c.threshold)) ≤ 2 :=
        max_le (sev_le_two o) (sev_le_two _)
      simp only [run_checks_loop, hc]
      rw [hstep, ih _ _ (statusOfSev_ne_error _)]
      have hfold : foldSev (sev o) (c :: cs)
          = foldSev (max (sev o) (sev (evaluate_status v c.threshold))) cs := by
        simp [foldSev, resultOf, hc]
      rw [hfold, sev_statusOfSev _ hmax]
    | error e =>
      simp only [run_checks_loop, hc]
      rw [ih _ _ (by simp)]
      have hfold : foldSev (sev o) (c :: cs) = foldSev (max (sev o) 2) cs := by
        simp [foldSev, resultOf, hc, sev]
      rw [hfold, Nat.max_eq_right (sev_le_two o)]
      rfl

theorem foldSev_init_le (cs : List Check) : ∀ k : Nat, k ≤ foldSev k cs := by
  induction cs with
  | nil => intro k; simp [foldSev]
  | cons c cs ih =>
    intro k
    have h1 : k ≤ max k (sev (resultOf c).status) := Nat.le_max_left _ _
    calc k ≤ max k (sev (resultOf c).status) := h1
      _ ≤ foldSev (max k (sev (resultOf c).status)) cs := ih _
      _ = foldSev k (c :: cs) := rfl

theorem mem_le_foldSev (cs : List Check) (c : Check) (hc : c ∈ cs) :
    ∀ k : Nat, sev (resultOf c).status ≤ foldSev k cs := by
  induction cs with
  | nil => cases hc
  | cons b bs ih =>
    intro k
    rcases List.mem_cons.mp hc with rfl | hmem
    · calc sev (resultOf c).status ≤ max k (sev (resultOf c).status) := Nat.le_max_right _ _
        _ ≤ foldSev (max k (sev (resultOf c).status)) bs := foldSev_init_le bs _
        _ = foldSev k (c :: bs) := rfl
    · exact ih hmem (max k (sev (resultOf b).status))

theorem statusOfSev_eq_unhealthy (n : Nat) (h : 2 ≤ n) : statusOfSev n = .unhealthy := by
  unfold statusOfSev
  rw [if_pos h]

theorem run_checks_fst (cs : List Check) : (run_checks cs).1 = cs.map resultOf := by
  unfold run_checks
  rw [run_checks_loop_fst]
  simp

theorem run_checks_snd (cs : List Check) : (run_checks cs).2 = statusOfSev (foldSev 0 cs) := by
  unfold run_checks
  rw [run_checks_loop_snd cs [] .healthy (by simp)]
  rfl

/-- C6: `_evaluate_status` returns healthy when the threshold has no
bounds; a composite value is first reduced to its `percent` field (0 when
absent); with both bounds present the scalar is unhealthy above `max`,
else degraded above `warning`, else healthy; and the constant 85 against
`{warning: 70, max: 90}` evaluates to degraded. -/
theorem C6_evaluate_status_spec (v : ProbeValue) (o : Option ℚ) (t : Threshold)
    (x w mx : ℚ) :
    evaluate_status v ⟨none, none⟩ = .healthy
      ∧ evaluate_status (.composite o) t = evaluate_status (.scalar (o.getD 0)) t
      ∧ evaluate_status (.scalar x) ⟨some w, some mx⟩
        = (if mx < x then Status.unhealthy else if w < x then .degraded else .healthy)
      ∧ evaluate_status (.scalar 85) ⟨some 70, some 90⟩ = .degraded := by
  refine ⟨by simp [evaluate_status], rfl, ?_, by decide⟩
  simp [evaluate_status]

/-- C7: the overall status of `run_checks` is the most severe of the
individual statuses (under `error = unhealthy > degraded > healthy`); with
no checks registered it is healthy; and a degraded probe together with an
unhealthy probe yields overall unhealthy. -/
theorem C7_overall_most_severe (cs : List Check) :
    (run_checks cs).2 = statusOfSev (maxSev (run_checks cs).1)
      ∧ (run_checks []).2 = .healthy
      ∧ (run_checks
          [⟨"cpu", .ok (.scalar 85), ⟨some 70, some 90⟩⟩,
            ⟨"disk", .ok (.scalar 97), ⟨some 80, some 95⟩⟩]).2 = .unhealthy := by
  refine ⟨?_, rfl, by decide⟩
  rw [run_checks_snd, run_checks_fst]
  have hfold : maxSev (cs.map resultOf) = foldSev 0 cs := by
    unfold maxSev foldSev
    rw [List.foldl_map]
  rw [hfold]

/-- C8: if the `i`-th registered probe raises (outcome `Except.error e`),
`run_checks` still returns normally with a result for every probe in
order, records `{status: error, error: e}` for that probe, and forces the
overall status to unhealthy. -/
theorem C8_probe_failure_isolated (cs : List Check) (i : Nat) (hi : i < cs.length)
    (e : String) (he : (cs.get ⟨i, hi⟩).outcome = .error e) :
    (run_checks cs).1.length = cs.length
      ∧ (run_checks cs).1.map CheckResult.name = cs.map Check.name
      ∧ ((run_checks cs).1.getD i ⟨"", .healthy, none, none⟩).status = .error
      ∧ ((run_checks cs).1.getD i ⟨"", .healthy, none, none⟩).errMsg = some e
      ∧ (run_checks cs).2 = .unhealthy := by
  have hfst := run_checks_fst cs
  have hres : resultOf (cs.get ⟨i, hi⟩) = ⟨(cs.get ⟨i, hi⟩).name, .error, none, some e⟩ := by
    unfold resultOf
    rw [he]
  have hgetD : (run_checks cs).1.getD i ⟨"", .healthy, none, none⟩
      = resultOf (cs.get ⟨i, hi⟩) := by
    rw [hfst]
    rw [List.getD_eq_get _ _ (by simpa using hi)]
    simp [List.get_map]
  refine ⟨?_, ?_, ?_, ?_, ?_⟩
  · rw [hfst]; simp
  · rw [hfst, List.map_map]
    have hname : CheckResult.name ∘ resultOf = Check.name := by
      funext c
      cases hc : c.outcome <;> simp [resultOf, hc, Function.comp]
    rw [hname]
  · rw [hgetD, hres]
  · rw [hgetD, hres]
  · rw [run_checks_snd]
    refine statusOfSev_eq_unhealthy _ ?_
    have hmem : cs.get ⟨i, hi⟩ ∈ cs := List.get_mem cs i hi
    have hsev : sev (resultOf (cs.get ⟨i, hi⟩)).status = 2 := by rw [hres]; rfl
    have := mem_le_foldSev cs _ hmem 0
    omega

/-- Witness for C8: three probes where the middle one raises `"boom"`. -/
theorem C8_probe_failure_isolated_witness :
    (run_checks
          [⟨"cpu", .ok (.scalar 85), ⟨some 70, some 90⟩⟩,
            ⟨"db", .error "boom", ⟨none, none⟩⟩,
            ⟨"disk", .ok (.scalar 10), ⟨some 80, some 95⟩⟩]).1.length
        = ([⟨"cpu", .ok (.scalar 85), ⟨some 70, some 90⟩⟩,
            ⟨"db", .error "boom", ⟨none, none⟩⟩,
            ⟨"disk", .ok (.scalar 10), ⟨some 80, some 95⟩⟩] : List Check).length
      ∧ (run_checks
          [⟨"cpu", .ok (.scalar 85), ⟨some 70, some 90⟩⟩,
            ⟨"db", .error "boom", ⟨none, none⟩⟩,
            ⟨"disk", .ok (.scalar 10), ⟨some 80, some 95⟩⟩]).1.map CheckResult.name
        = ([⟨"cpu", .ok (.scalar 85), ⟨some 70, some 90⟩⟩,
            ⟨"db", .error "boom", ⟨none, none⟩⟩,
            ⟨"disk", .ok (.scalar 10), ⟨some 80, some 95⟩⟩] : List Check).map Check.name
      ∧ ((run_checks
          [⟨"cpu", .ok (.scalar 85), ⟨some 70, some 90⟩⟩,
            ⟨"db", .error "boom", ⟨none, none⟩⟩,
            ⟨"disk", .ok (.scalar 10), ⟨some 80, some 95⟩⟩]).1.getD 1
            ⟨"", .healthy, none, none⟩).status = .error
      ∧ ((run_checks
          [⟨"cpu", .ok (.scalar 85), ⟨some 70, some 90⟩⟩,
            ⟨"db", .error "boom", ⟨none, none⟩⟩,
            ⟨"disk", .ok (.scalar 10), ⟨some 80, some 95⟩⟩]).1.getD 1
            ⟨"", .healthy, none, none⟩).errMsg = some "boom"
      ∧ (run_checks
          [⟨"cpu", .ok (.scalar 85), ⟨some 70, some 90⟩⟩,
            ⟨"db", .error "boom", ⟨none, none⟩⟩,
            ⟨"disk", .ok (.scalar 10), ⟨some 80, some 95⟩⟩]).2 = .unhealthy :=
  C8_probe_failure_isolated
    [⟨"cpu", .ok (.scalar 85), ⟨some 70, some 90⟩⟩,
      ⟨"db", .error "boom", ⟨none, none⟩⟩,
      ⟨"disk", .ok (.scalar 10), ⟨some 80, some 95⟩⟩]
    1 (by decide) "boom" rfl

/-- C10: whatever the probes do (including all of them raising), the
overall status of `run_checks` — the value `get_health_status` relays — is
one of healthy, degraded or unhealthy, never the `error` status that
per-probe results may carry. -/
theorem C10_overall_never_error (cs : List Check) :
    ((run_checks cs).2 = .healthy ∨ (run_checks cs).2 = .degraded
        ∨ (run_checks cs).2 = .unhealthy)
      ∧ (run_checks cs).2 ≠ .error
      ∧ get_health_status cs ≠ .error := by
  have h2 : (run_checks cs).2 ≠ .error := by
    rw [run_checks_snd]
    exact statusOfSev_ne_error _
  refine ⟨?_, h2, h2⟩
  cases hs : (run_checks cs).2 <;> simp_all

/-- The three counter fields `get_summary` reads (lines 140-142).  In the
code this read sequence runs WITHOUT acquiring `self._lock`: the body of
`get_summary` (lines 137-153) contains no `with self._lock`, while
`record_request` and `reset` do lock. -/
def summary_counters (m : ApplicationMetrics) : Nat × Nat × Nat :=
  (m.total_requests, m.success_count, m.error_count)

/-- One unlocked interleaving of `get_summary` with a concurrent
`record_request`: since `get_summary` holds no lock, the (locked)
`record_request` may commit between `get_summary`'s read of
`total_requests` and its reads of the two other counters.  The first
component is read from the pre-write state, the other two from the
post-write state. -/
def torn_summary_counters (m : ApplicationMetrics) (r : Request) : Nat × Nat × Nat :=
  ((summary_counters m).1,
    (summary_counters (m.record_request r.duration r.format r.intent r.success)).2.1,
    (summary_counters (m.record_request r.duration r.format r.intent r.success)).2.2)

/-- C9 (code bug): because `get_summary` does not acquire the recorder's
lock, a `record_request` interleaved between its counter reads yields one
summary whose counters disagree (`success_count + error_count ≠
total_requests`), violating the promised point-in-time consistency.
Concrete failing interleaving: fresh recorder of capacity 5, one
successful request committing mid-read. -/
theorem C9_get_summary_torn_read :
    (torn_summary_counters (ApplicationMetrics.init 5) ⟨1, none, none, true⟩).2.1
        + (torn_summary_counters (ApplicationMetrics.init 5) ⟨1, none, none, true⟩).2.2
      ≠ (torn_summary_counters (ApplicationMetrics.init 5) ⟨1, none, none, true⟩).1 := by
  decide

end DocRouter
